import Mathlib

/-!
Shallow embedding of the "asmbunny" register-machine interpreter from
aoc2016: the toggle-capable variant (`src/asmbunny.rs`, used by day23)
and the simpler non-toggle variant (`src/bin/day12.rs`).

Registers are modelled as an association list `List (String × Int)`;
`lookupReg`/`insertReg` mirror the observable semantics of the Rust
`HashMap` operations (`entry(..).or_insert(0)` and `insert`).
Machine integers (`i64`) are modelled as `Int`; none of the verified
properties involve overflow.
-/

/-- Association-list lookup, mirroring `HashMap::get`. -/
def lookupReg : List (String × Int) → String → Option Int
  | [], _ => none
  | (k, v) :: rest, id => if k = id then some v else lookupReg rest id

/-- Association-list insert-or-replace, mirroring `HashMap::insert`
(and the insertion performed by `entry(..).or_insert`). -/
def insertReg : List (String × Int) → String → Int → List (String × Int)
  | [], id, v => [(id, v)]
  | (k, w) :: rest, id, v =>
    if k = id then (k, v) :: rest else (k, w) :: insertReg rest id v

/-- Accumulate the value of a string of ASCII digits; `none` as soon as a
non-digit appears.  Mirrors the digit loop of Rust `i64::from_str`. -/
def digitsVal : List Char → Nat → Option Nat
  | [], acc => some acc
  | c :: rest, acc =>
    if c.isDigit then digitsVal rest (acc * 10 + (c.toNat - 48)) else none

/-- Value of a nonempty all-digit character list, else `none`. -/
def digitsToNat (cs : List Char) : Option Nat :=
  if cs.isEmpty then none else digitsVal cs 0

/-- Rust `s.parse::<i64>()`: optional sign, at least one ASCII digit,
value within the `i64` range; `none` on any other input. -/
def parseI64 (str : String) : Option Int :=
  match str.toList with
  | '+' :: rest =>
    (digitsToNat rest).bind fun n =>
      if n < 2 ^ 63 then some (n : Int) else none
  | '-' :: rest =>
    (digitsToNat rest).bind fun n =>
      if n ≤ 2 ^ 63 then some (-(n : Int)) else none
  | cs =>
    (digitsToNat cs).bind fun n =>
      if n < 2 ^ 63 then some (n : Int) else none

/-- Worker for `splitWhitespace`: `cur` holds the characters of the
token being read, most recent first. -/
def splitWsAux : List Char → List Char → List String
  | [], cur => if cur = [] then [] else [String.mk cur.reverse]
  | c :: rest, cur =>
    if c.isWhitespace then
      if cur = [] then splitWsAux rest []
      else String.mk cur.reverse :: splitWsAux rest []
    else splitWsAux rest (c :: cur)

/-- Rust `str::split_whitespace`: split on runs of whitespace, never
producing empty tokens. -/
def splitWhitespace (s : String) : List String :=
  splitWsAux s.toList []

/-- Operand type `Source` (`src/asmbunny.rs`): a literal constant or a
named register. -/
inductive Source where
  | constant (value : Int)
  | register (id : String)
deriving DecidableEq, Repr

/-- Parsing of `Source::from_str`: try integer parse first, otherwise
the token verbatim is a register name.  Total (never fails). -/
def sourceFromStr (s : String) : Source :=
  match parseI64 s with
  | some value => Source.constant value
  | none => Source.register s

/-- Instruction set of the toggle-capable variant (`src/asmbunny.rs`). -/
inductive Instruction where
  | cpy (source : Source) (register : Source)
  | inc (register : Source)
  | dec (register : Source)
  | jnz (source : Source) (offset : Source)
  | tgl (offset : Source)
deriving DecidableEq, Repr

/-- Error type `AsmError` (`src/asmbunny.rs`), keeping the offending
text. -/
inductive AsmError where
  | parseInt (data : String)
  | parseInstruction (data : String)
deriving DecidableEq, Repr

/-- Dispatch on the whitespace token list, as the Rust
`Instruction::from_str` matches on `&tokens[..]`. -/
def instructionOfTokens (s : String) (ts : List String) :
    Except AsmError Instruction :=
  match ts with
  | ["cpy", source, register] =>
    .ok (.cpy (sourceFromStr source) (sourceFromStr register))
  | ["inc", register] => .ok (.inc (sourceFromStr register))
  | ["dec", register] => .ok (.dec (sourceFromStr register))
  | ["jnz", source, offset] =>
    .ok (.jnz (sourceFromStr source) (sourceFromStr offset))
  | ["tgl", offset] => .ok (.tgl (sourceFromStr offset))
  | _ => .error (.parseInstruction s)

/-- Line parsing `Instruction::from_str` of `src/asmbunny.rs`. -/
def instructionFromStr (s : String) : Except AsmError Instruction :=
  instructionOfTokens s (splitWhitespace s)

/-- Machine state of `src/asmbunny.rs`: instruction counter, register
mapping, mutable instruction memory. -/
structure State where
  ic : Int
  registers : List (String × Int)
  instructions : List Instruction
deriving DecidableEq, Repr

/-- Fetch `State::get_instruction`: `none` for a negative or too-large
index. -/
def State.getInstruction (s : State) (pos : Int) : Option Instruction :=
  if pos < 0 then none
  else if s.instructions.length ≤ pos.toNat then none
  else s.instructions.get? pos.toNat

/-- Core of `get_value` on a register mapping:
`registers.entry(id.clone()).or_insert(0)` — reading an absent register
inserts it with value 0 and returns 0. -/
def getValueR (registers : List (String × Int)) (source : Source) :
    Int × List (String × Int) :=
  match source with
  | .constant value => (value, registers)
  | .register id =>
    match lookupReg registers id with
    | some v => (v, registers)
    | none => (0, insertReg registers id 0)

/-- Operand evaluation `State::get_value` (`&mut self`): returns the
value and the possibly updated state. -/
def State.getValue (s : State) (source : Source) : Int × State :=
  let p := getValueR s.registers source
  (p.1, { s with registers := p.2 })

/-- Register write `State::set_value`: writes to a register, silently
ignores a constant target. -/
def State.setValue (s : State) (source : Source) (value : Int) : State :=
  match source with
  | .constant _ => s
  | .register id => { s with registers := insertReg s.registers id value }

/-- The toggle transformation table of `State::step`
(`Instruction::Tgl` arm): kind-to-kind, operands carried over
positionally. -/
def toggleInst : Instruction → Instruction
  | .cpy source register => .jnz source register
  | .inc register => .dec register
  | .dec register => .inc register
  | .jnz source offset => .cpy source offset
  | .tgl offset => .inc offset

/-- Body of `State::step` once the fetch has succeeded: execute the one
fetched instruction.  Every arm but a taken `jnz` falls through to
`self.ic += 1`. -/
def execInst (s : State) (inst : Instruction) : State :=
  match inst with
  | .cpy source register =>
    let p := s.getValue source
    let t := p.2.setValue register p.1
    { t with ic := t.ic + 1 }
  | .inc register =>
    let p := s.getValue register
    let t := p.2.setValue register (p.1 + 1)
    { t with ic := t.ic + 1 }
  | .dec register =>
    let p := s.getValue register
    let t := p.2.setValue register (p.1 - 1)
    { t with ic := t.ic + 1 }
  | .jnz source offset =>
    let p := s.getValue source
    let q := p.2.getValue offset
    if p.1 ≠ 0 then { q.2 with ic := q.2.ic + q.1 }
    else { q.2 with ic := q.2.ic + 1 }
  | .tgl offset =>
    let p := s.getValue offset
    match p.2.getInstruction (p.2.ic + p.1) with
    | some target =>
      let t := { p.2 with
        instructions :=
          p.2.instructions.set (p.2.ic + p.1).toNat (toggleInst target) }
      { t with ic := t.ic + 1 }
    | none => { p.2 with ic := p.2.ic + 1 }

/-- Step function `State::step`: fetch at the current counter; `false`
(state untouched) when the fetch fails, otherwise execute the
instruction and return `true`. -/
def step (s : State) : Bool × State :=
  match s.getInstruction s.ic with
  | none => (false, s)
  | some inst => (true, execInst s inst)

/-- The day23 driver loop (`while let Some(_) = get_instruction(ic)
\x7b step() \x7d`), run for at most `n` iterations. -/
def run2 : Nat → State → State
  | 0, s => s
  | n + 1, s =>
    match s.getInstruction s.ic with
    | none => s
    | some _ => run2 n (step s).2

/-!
The non-toggle variant (`src/bin/day12.rs`): register targets of
`cpy`/`inc`/`dec` are plain strings, the `jnz` offset is an `i64`
literal, and `step` takes the instruction by argument (the driver loop
in `main` indexes the instruction list). -/

/-- Instruction set of `src/bin/day12.rs`. -/
inductive Instruction12 where
  | cpy (source : Source) (register : String)
  | inc (register : String)
  | dec (register : String)
  | jnz (source : Source) (offset : Int)
deriving DecidableEq, Repr

/-- Error type of `src/bin/day12.rs` (the parse-relevant variants). -/
inductive Error12 where
  | parseInt (data : String)
  | parseInstruction (data : String)
deriving DecidableEq, Repr

/-- Token dispatch of `Instruction::from_str` in `src/bin/day12.rs`:
the `jnz` offset must parse as an `i64` literal or the line fails with
a `ParseInt` error naming the offset token. -/
def instruction12OfTokens (s : String) (ts : List String) :
    Except Error12 Instruction12 :=
  match ts with
  | ["cpy", source, register] =>
    .ok (.cpy (sourceFromStr source) register)
  | ["inc", register] => .ok (.inc register)
  | ["dec", register] => .ok (.dec register)
  | ["jnz", source, offset] =>
    match parseI64 offset with
    | some o => .ok (.jnz (sourceFromStr source) o)
    | none => .error (.parseInt offset)
  | _ => .error (.parseInstruction s)

/-- Line parsing `Instruction::from_str` of `src/bin/day12.rs`. -/
def instruction12FromStr (s : String) : Except Error12 Instruction12 :=
  instruction12OfTokens s (splitWhitespace s)

/-- Machine state of `src/bin/day12.rs`: counter and registers only
(instruction memory is immutable and lives with the caller). -/
structure State12 where
  ic : Int
  registers : List (String × Int)
deriving DecidableEq, Repr

/-- Operand evaluation `State::get_value` of `src/bin/day12.rs` (same
body as the asmbunny one). -/
def State12.getValue (s : State12) (source : Source) : Int × State12 :=
  let p := getValueR s.registers source
  (p.1, { s with registers := p.2 })

/-- Step function `State::step` of `src/bin/day12.rs`: executes the
given instruction.  A taken `jnz` returns before the trailing
`ic += 1`. -/
def step12 (s : State12) (inst : Instruction12) : State12 :=
  match inst with
  | .cpy source register =>
    let p := s.getValue source
    let t := { p.2 with
      registers := insertReg p.2.registers register p.1 }
    { t with ic := t.ic + 1 }
  | .inc register =>
    let v := (lookupReg s.registers register).getD 0
    let t := { s with registers := insertReg s.registers register (v + 1) }
    { t with ic := t.ic + 1 }
  | .dec register =>
    let v := (lookupReg s.registers register).getD 0
    let t := { s with registers := insertReg s.registers register (v - 1) }
    { t with ic := t.ic + 1 }
  | .jnz source offset =>
    let p := s.getValue source
    if p.1 ≠ 0 then { p.2 with ic := p.2.ic + offset }
    else { p.2 with ic := p.2.ic + 1 }

/-- The day12 driver loop
(`while (ic >= 0) && (ic < len) \x7b step(&instructions[ic]) \x7d`),
run for at most `n` iterations. -/
def run12 : Nat → List Instruction12 → State12 → State12
  | 0, _, s => s
  | n + 1, instrs, s =>
    if s.ic < 0 then s
    else
      match instrs.get? s.ic.toNat with
      | none => s
      | some inst => run12 n instrs (step12 s inst)

/-- Positional translation of a variant-1 instruction into the
toggle-capable instruction type: register names become register
operands, the literal `jnz` offset becomes a constant operand.  The
image never contains `tgl`. -/
def toInstr2 : Instruction12 → Instruction
  | .cpy source register => .cpy source (.register register)
  | .inc register => .inc (.register register)
  | .dec register => .dec (.register register)
  | .jnz source offset => .jnz source (.constant offset)

/-- The seven-instruction toggle self-test program of end-to-end
scenario A (`cpy 2 a; tgl a; tgl a; tgl a; cpy 1 a; dec a; dec a`). -/
def scenarioA : List Instruction :=
  [.cpy (.constant 2) (.register "a"),
   .tgl (.register "a"),
   .tgl (.register "a"),
   .tgl (.register "a"),
   .cpy (.constant 1) (.register "a"),
   .dec (.register "a"),
   .dec (.register "a")]

/-- Recognized mnemonic/arity forms of the toggle-capable parser. -/
def recognizedForm : List String → Bool
  | ["cpy", _, _] => true
  | ["inc", _] => true
  | ["dec", _] => true
  | ["jnz", _, _] => true
  | ["tgl", _] => true
  | _ => false

/-! ### Helper lemmas -/

theorem lookupReg_insertReg (l : List (String × Int)) (k id : String) (v : Int) :
    lookupReg (insertReg l k v) id = if k = id then some v else lookupReg l id := by
  induction l with
  | nil => simp [insertReg, lookupReg]
  | cons hd tl ih =>
    obtain ⟨k0, v0⟩ := hd
    by_cases hk : k0 = k
    · subst hk
      by_cases hid : k0 = id <;> simp [insertReg, lookupReg, hid]
    · by_cases hid : k0 = id
      · subst hid
        have hne : k ≠ k0 := fun h => hk h.symm
        simp [insertReg, hk, lookupReg, hne]
      · simp [insertReg, hk, lookupReg, hid, ih]

theorem insertReg_insertReg (l : List (String × Int)) (id : String) (a b : Int) :
    insertReg (insertReg l id a) id b = insertReg l id b := by
  induction l with
  | nil => simp [insertReg]
  | cons hd tl ih =>
    obtain ⟨k0, v0⟩ := hd
    by_cases hk : k0 = id
    · subst hk
      simp [insertReg]
    · simp [insertReg, hk, ih]

theorem getValue_ic (s : State) (src : Source) : (s.getValue src).2.ic = s.ic := rfl

theorem getValue_instructions (s : State) (src : Source) :
    (s.getValue src).2.instructions = s.instructions := rfl

theorem getValue_getInstruction (s : State) (src : Source) (p : Int) :
    (s.getValue src).2.getInstruction p = s.getInstruction p := rfl

theorem getInstruction_none_iff (s : State) (p : Int) :
    s.getInstruction p = none ↔ p < 0 ∨ (s.instructions.length : Int) ≤ p := by
  unfold State.getInstruction
  split_ifs with h1 h2
  · simp only [true_iff]
    exact Or.inl h1
  · simp only [true_iff]
    omega
  · rw [List.get?_eq_none]
    omega

theorem lookupReg_getValueR (regs : List (String × Int)) (b : Source)
    (id : String) (v : Int) (h : lookupReg regs id = some v) :
    lookupReg (getValueR regs b).2 id = some v := by
  cases b with
  | constant c => exact h
  | register id2 =>
    simp only [getValueR]
    cases hl : lookupReg regs id2 with
    | some w => exact h
    | none =>
      simp only [lookupReg_insertReg]
      by_cases he : id2 = id
      · subst he
        rw [hl] at h
        cases h
      · simp [he, h]

theorem getValueR_self (regs : List (String × Int)) (a : Source) :
    getValueR (getValueR regs a).2 a = ((getValueR regs a).1, (getValueR regs a).2) := by
  cases a with
  | constant c => rfl
  | register id =>
    simp only [getValueR]
    cases hl : lookupReg regs id with
    | some w => simp [getValueR, hl]
    | none => simp [getValueR, hl, lookupReg_insertReg]

theorem execInst_tgl (s : State) (offset : Source) :
    execInst s (.tgl offset) =
      match (s.getValue offset).2.getInstruction (s.ic + (s.getValue offset).1) with
      | some target =>
        { (s.getValue offset).2 with
            instructions :=
              s.instructions.set (s.ic + (s.getValue offset).1).toNat (toggleInst target),
            ic := s.ic + 1 }
      | none => { (s.getValue offset).2 with ic := s.ic + 1 } := rfl

theorem execInst_jnz (s : State) (src off : Source) :
    execInst s (.jnz src off) =
      if (s.getValue src).1 ≠ 0
      then { ((s.getValue src).2.getValue off).2 with
               ic := s.ic + ((s.getValue src).2.getValue off).1 }
      else { ((s.getValue src).2.getValue off).2 with ic := s.ic + 1 } := rfl

/-! ### Claim theorems -/

/-- C10: `get_instruction` returning `Some` guarantees the index is
non-negative and strictly below the instruction count, so the unguarded
write-back `instructions[(ic + ofs) as usize]` in the toggle arm of
`step` (executed only after such a `Some`) is in bounds and `step`
never panics. -/
theorem get_instruction_bounds (s : State) (p : Int) (i : Instruction)
    (h : s.getInstruction p = some i) :
    0 ≤ p ∧ p.toNat < s.instructions.length := by
  unfold State.getInstruction at h
  split_ifs at h with h1 h2
  omega

/-- Witness for C10 at a concrete state. -/
theorem get_instruction_bounds_witness :
    0 ≤ (0 : Int) ∧ (0 : Int).toNat <
      (State.mk 0 [] [Instruction.inc (Source.register "a")]).instructions.length :=
  get_instruction_bounds (State.mk 0 [] [Instruction.inc (Source.register "a")]) 0
    (Instruction.inc (Source.register "a")) (by decide)

/-- C9: evaluating a register operand absent from the register mapping
returns 0 and inserts that register with value 0 into the mapping —
register reads are not side-effect-free.  In particular a `jnz` step
whose condition names a previously-unwritten register leaves that
register present (with value 0) after the step. -/
theorem register_read_inserts_default (s : State) (id : String) (c : Int)
    (h : lookupReg s.registers id = none) :
    ((s.getValue (.register id)).1 = 0
      ∧ lookupReg (s.getValue (.register id)).2.registers id = some 0)
    ∧ (s.getInstruction s.ic = some (.jnz (.register id) (.constant c)) →
        lookupReg ((step s).2).registers id = some 0) := by
  constructor
  · unfold State.getValue getValueR
    simp [h, lookupReg_insertReg]
  · intro hf
    unfold step
    rw [hf]
    simp [execInst, State.getValue, getValueR, h, lookupReg_insertReg]

/-- Witness for C9 at a concrete state. -/
theorem register_read_inserts_default_witness :
    (((State.mk 0 [] [Instruction.jnz (Source.register "b") (Source.constant 0)]).getValue
        (.register "b")).1 = 0
      ∧ lookupReg ((State.mk 0 [] [Instruction.jnz (Source.register "b")
          (Source.constant 0)]).getValue (.register "b")).2.registers "b" = some 0)
    ∧ lookupReg ((step (State.mk 0 []
        [Instruction.jnz (Source.register "b") (Source.constant 0)])).2).registers "b"
        = some 0 :=
  ⟨(register_read_inserts_default
      (State.mk 0 [] [Instruction.jnz (Source.register "b") (Source.constant 0)])
      "b" 0 (by decide)).1,
   (register_read_inserts_default
      (State.mk 0 [] [Instruction.jnz (Source.register "b") (Source.constant 0)])
      "b" 0 (by decide)).2 (by decide)⟩

/-- C2: `step` returns `false` exactly when the pre-step counter is
negative or at least the instruction count; in that case the whole
state is unchanged; when it returns `true` exactly the one fetched
instruction was executed. -/
theorem step_fetch_contract (s : State) :
    ((step s).1 = false ↔ s.ic < 0 ∨ (s.instructions.length : Int) ≤ s.ic)
    ∧ ((step s).1 = false → step s = (false, s))
    ∧ ((step s).1 = true →
        ∃ i, s.getInstruction s.ic = some i ∧ step s = (true, execInst s i)) := by
  cases h : s.getInstruction s.ic with
  | none =>
    refine ⟨?_, ?_, ?_⟩
    · simp only [step, h]
      simpa using (getInstruction_none_iff s s.ic).mp h
    · intro _
      simp [step, h]
    · intro ht
      rw [step, h] at ht
      cases ht
  | some i =>
    refine ⟨?_, ?_, ?_⟩
    · simp only [step, h]
      constructor
      · intro hf
        cases hf
      · intro hr
        have := (getInstruction_none_iff s s.ic).mpr hr
        rw [h] at this
        cases this
    · intro hf
      rw [step, h] at hf
      cases hf
    · intro _
      exact ⟨i, rfl, by simp [step, h]⟩

/-- Witness for C2 at a concrete halted state. -/
theorem step_fetch_contract_witness :
    step (State.mk 5 [] []) = (false, State.mk 5 [] []) :=
  (step_fetch_contract (State.mk 5 [] [])).2.1
    ((step_fetch_contract (State.mk 5 [] [])).1.mpr (by decide))

/-- C1: a `step` on a `Toggle` instruction whose evaluated offset
addresses a valid instruction rewrites exactly that instruction of a
fetched copy of the target according to the fixed kind-to-kind table
(Copy→ConditionalJump, Increment→Decrement, Decrement→Increment,
ConditionalJump→Copy, Toggle→Increment), carrying every operand over
positionally, and advances the counter by exactly 1.  Because the
written-back value is computed from the fetched `target`, the formula
also applies when `counter + offset = counter`. -/
theorem toggle_rewrites_target (s : State) (offset : Source) (target : Instruction)
    (hfetch : s.getInstruction s.ic = some (.tgl offset))
    (htarget : s.getInstruction (s.ic + (s.getValue offset).1) = some target) :
    step s = (true,
      { (s.getValue offset).2 with
          instructions :=
            s.instructions.set (s.ic + (s.getValue offset).1).toNat (toggleInst target),
          ic := s.ic + 1 })
    ∧ (∀ a b, toggleInst (.cpy a b) = .jnz a b)
    ∧ (∀ a, toggleInst (.inc a) = .dec a)
    ∧ (∀ a, toggleInst (.dec a) = .inc a)
    ∧ (∀ a b, toggleInst (.jnz a b) = .cpy a b)
    ∧ (∀ a, toggleInst (.tgl a) = .inc a) := by
  refine ⟨?_, fun a b => rfl, fun a => rfl, fun a => rfl, fun a b => rfl, fun a => rfl⟩
  simp only [step, hfetch]
  rw [execInst_tgl, getValue_getInstruction, htarget]

/-- Witness for C1: a `tgl 0` toggles itself (via the fetched copy)
into `inc 0`. -/
theorem toggle_rewrites_target_witness :
    step (State.mk 0 [] [Instruction.tgl (Source.constant 0)])
      = (true, State.mk 1 [] [Instruction.inc (Source.constant 0)]) :=
  (toggle_rewrites_target (State.mk 0 [] [Instruction.tgl (Source.constant 0)])
    (Source.constant 0) (Instruction.tgl (Source.constant 0))
    (by decide) (by decide)).1

/-- C3: a `step` on a `Toggle` whose evaluated offset addresses an
invalid index (negative or beyond the end) changes nothing except
advancing the counter by 1: registers and instruction memory are
exactly those of the pre-step state. -/
theorem toggle_out_of_range_noop (s : State) (offset : Source)
    (hfetch : s.getInstruction s.ic = some (.tgl offset))
    (htarget : s.getInstruction (s.ic + (s.getValue offset).1) = none) :
    step s = (true, { s with ic := s.ic + 1 }) := by
  have hval : s.getValue offset = ((s.getValue offset).1, s) := by
    cases offset with
    | constant c => rfl
    | register id =>
      cases hl : lookupReg s.registers id with
      | some w => simp [State.getValue, getValueR, hl]
      | none =>
        exfalso
        have h0 : (s.getValue (Source.register id)).1 = 0 := by
          simp [State.getValue, getValueR, hl]
        rw [h0, Int.add_zero] at htarget
        rw [htarget] at hfetch
        cases hfetch
  simp only [step, hfetch]
  rw [execInst_tgl, getValue_getInstruction, htarget, hval]

/-- Witness for C3: a `tgl 5` over a one-instruction program leaves
everything but the counter untouched. -/
theorem toggle_out_of_range_noop_witness :
    step (State.mk 0 [] [Instruction.tgl (Source.constant 5)])
      = (true, State.mk 1 [] [Instruction.tgl (Source.constant 5)]) :=
  toggle_out_of_range_noop (State.mk 0 [] [Instruction.tgl (Source.constant 5)])
    (Source.constant 5) (by decide) (by decide)

theorem getValueR_of_lookup (regs : List (String × Int)) (id : String) (w : Int)
    (h : lookupReg regs id = some w) : getValueR regs (.register id) = (w, regs) := by
  simp [getValueR, h]

theorem getValueR_stable (regs : List (String × Int)) (src off : Source) :
    getValueR (getValueR (getValueR regs src).2 off).2 src
      = ((getValueR regs src).1, (getValueR (getValueR regs src).2 off).2) := by
  cases src with
  | constant c => rfl
  | register id =>
    cases hl : lookupReg regs id with
    | some w =>
      have h1 : getValueR regs (Source.register id) = (w, regs) :=
        getValueR_of_lookup regs id w hl
      rw [h1]
      exact getValueR_of_lookup _ id w (lookupReg_getValueR regs off id w hl)
    | none =>
      have h1 : getValueR regs (Source.register id) = (0, insertReg regs id 0) := by
        simp [getValueR, hl]
      rw [h1]
      exact getValueR_of_lookup _ id 0
        (lookupReg_getValueR _ off id 0 (by simp [lookupReg_insertReg]))

theorem getValue_of_getValueR (s : State) (a : Source) (x : Int)
    (h : getValueR s.registers a = (x, s.registers)) : s.getValue a = (x, s) := by
  simp only [State.getValue, h]

/-- C5: on a `ConditionalJump`, `step` adds the evaluated offset to the
counter (replacing the default advance) when the evaluated condition is
nonzero, and advances by exactly 1 when it is zero; with a nonzero
condition and an offset evaluating to 0 the counter is unchanged and
the post-step state is a `step` fixed point, so repeated stepping loops
forever at the same instruction. -/
theorem jnz_semantics (s : State) (src off : Source)
    (hfetch : s.getInstruction s.ic = some (.jnz src off)) :
    ((s.getValue src).1 ≠ 0 →
      step s = (true, { ((s.getValue src).2.getValue off).2
                          with ic := s.ic + ((s.getValue src).2.getValue off).1 }))
    ∧ ((s.getValue src).1 = 0 →
      step s = (true, { ((s.getValue src).2.getValue off).2 with ic := s.ic + 1 }))
    ∧ ((s.getValue src).1 ≠ 0 → ((s.getValue src).2.getValue off).1 = 0 →
        (step s).2.ic = s.ic ∧ step (step s).2 = (true, (step s).2)) := by
  have hstep : step s = (true, execInst s (.jnz src off)) := by
    simp only [step, hfetch]
  refine ⟨?_, ?_, ?_⟩
  · intro hv
    rw [hstep, execInst_jnz, if_pos hv]
  · intro hv
    rw [hstep, execInst_jnz]
    simp [hv]
  · intro hv hofs
    have h2 : (step s).2 = ((s.getValue src).2.getValue off).2 := by
      rw [hstep, execInst_jnz, if_pos hv, hofs, Int.add_zero]
      exact rfl
    have hA : (((s.getValue src).2.getValue off).2).getValue src
        = ((s.getValue src).1, ((s.getValue src).2.getValue off).2) :=
      getValue_of_getValueR _ _ _ (getValueR_stable s.registers src off)
    have hB : (((s.getValue src).2.getValue off).2).getValue off
        = (((s.getValue src).2.getValue off).1, ((s.getValue src).2.getValue off).2) :=
      getValue_of_getValueR _ _ _ (getValueR_self (getValueR s.registers src).2 off)
    have hf2 : (((s.getValue src).2.getValue off).2).getInstruction
        ((((s.getValue src).2.getValue off).2).ic) = some (.jnz src off) := hfetch
    constructor
    · rw [h2]
      exact rfl
    · rw [h2]
      simp only [step, hf2]
      rw [execInst_jnz]
      simp only [hA, hB, hofs]
      rw [if_pos hv, Int.add_zero]

/-- Witness for C5: `jnz a 0` with `a = 1` keeps the counter at 0 and
the post-step state is a fixed point of `step`. -/
theorem jnz_semantics_witness :
    (step (State.mk 0 [("a", 1)]
        [Instruction.jnz (Source.register "a") (Source.constant 0)])).2.ic = 0
    ∧ step (step (State.mk 0 [("a", 1)]
        [Instruction.jnz (Source.register "a") (Source.constant 0)])).2
      = (true, (step (State.mk 0 [("a", 1)]
          [Instruction.jnz (Source.register "a") (Source.constant 0)])).2) :=
  (jnz_semantics (State.mk 0 [("a", 1)]
      [Instruction.jnz (Source.register "a") (Source.constant 0)])
    (Source.register "a") (Source.constant 0) (by decide)).2.2 (by decide) (by decide)

/-- C7: running the toggle-capable machine from counter 0 and empty
registers on `cpy 2 a; tgl a; tgl a; tgl a; cpy 1 a; dec a; dec a`
terminates (after 5 steps the next `step` returns `false` with the
state untouched) with register `a` equal to 3. -/
theorem scenarioA_halts_a_eq_3 :
    step (run2 5 (State.mk 0 [] scenarioA))
      = (false, run2 5 (State.mk 0 [] scenarioA))
    ∧ lookupReg (run2 5 (State.mk 0 [] scenarioA)).registers "a" = some 3 := by
  decide

theorem instructionOfTokens_spec (s : String) (ts : List String) :
    (recognizedForm ts = true → ∃ i, instructionOfTokens s ts = Except.ok i)
    ∧ (recognizedForm ts = false →
        instructionOfTokens s ts = Except.error (.parseInstruction s)) := by
  refine ⟨fun h => ?_, fun h => ?_⟩
  · unfold recognizedForm at h
    split at h
    · exact ⟨_, rfl⟩
    · exact ⟨_, rfl⟩
    · exact ⟨_, rfl⟩
    · exact ⟨_, rfl⟩
    · exact ⟨_, rfl⟩
    · cases h
  · unfold recognizedForm at h
    split at h
    · cases h
    · cases h
    · cases h
    · cases h
    · cases h
    · unfold instructionOfTokens
      split
      all_goals simp_all

/-- C6: in the toggle-capable variant a line parses successfully
exactly when its whitespace tokenization matches one of the recognized
mnemonic/arity forms (`cpy` 2, `inc` 1, `dec` 1, `jnz` 2, `tgl` 1);
any other tokenization fails with an invalid-instruction error carrying
the offending line, and a recognized form never fails because operand
parsing is total. -/
theorem parse_arity_contract (s : String) :
    (recognizedForm (splitWhitespace s) = true →
      ∃ i, instructionFromStr s = Except.ok i)
    ∧ (recognizedForm (splitWhitespace s) = false →
        instructionFromStr s = Except.error (.parseInstruction s)) :=
  instructionOfTokens_spec s (splitWhitespace s)

/-- Witness for C6: a line with an unrecognized mnemonic/arity fails
with the invalid-instruction error naming the line, and a recognized
form parses. -/
theorem parse_arity_contract_witness :
    instructionFromStr "mul a b" = Except.error (.parseInstruction "mul a b")
    ∧ ∃ i, instructionFromStr "tgl a" = Except.ok i :=
  ⟨(parse_arity_contract "mul a b").2 (by decide),
   (parse_arity_contract "tgl a").1 (by decide)⟩

/-- Counterexample to C4: in the non-toggle variant (`day12.rs`) a
`jnz` line whose offset token is the non-numeric identifier `a` does
NOT parse into a ConditionalJump — it fails with an integer-format
error carrying that token (the offset there is an `i64` literal, not
an operand). -/
theorem jnz_register_offset_fails_variant1 :
    instruction12FromStr "jnz 1 a" = Except.error (.parseInt "a")
    ∧ (instruction12FromStr "jnz 1 a").isOk = false :=
  ⟨rfl, rfl⟩

/-- C4 (amended): a `jnz <cond> <offset>` line with a non-numeric
offset token parses in the toggle-capable variant into a
ConditionalJump whose offset operand names that register, while the
non-toggle variant rejects it with an integer-format error naming the
offset token. -/
theorem jnz_offset_variants (s cond off : String)
    (hts : splitWhitespace s = ["jnz", cond, off])
    (hnum : parseI64 off = none) :
    instructionFromStr s = Except.ok (.jnz (sourceFromStr cond) (.register off))
    ∧ instruction12FromStr s = Except.error (.parseInt off) := by
  unfold instructionFromStr instruction12FromStr
  rw [hts]
  constructor
  · have h1 : instructionOfTokens s ["jnz", cond, off]
        = Except.ok (.jnz (sourceFromStr cond) (sourceFromStr off)) := rfl
    rw [h1]
    unfold sourceFromStr
    rw [hnum]
  · have h2 : instruction12OfTokens s ["jnz", cond, off]
        = (match parseI64 off with
           | some o => Except.ok (.jnz (sourceFromStr cond) o)
           | none => Except.error (.parseInt off)) := rfl
    rw [h2, hnum]

/-- Witness for C4 (amended) at the concrete line `jnz 1 a`. -/
theorem jnz_offset_variants_witness :
    instructionFromStr "jnz 1 a"
      = Except.ok (.jnz (sourceFromStr "1") (.register "a"))
    ∧ instruction12FromStr "jnz 1 a" = Except.error (.parseInt "a") :=
  jnz_offset_variants "jnz 1 a" "1" "a" (by decide) (by decide)

theorem step12_sim (instrs : List Instruction) (s : State12) (inst : Instruction12) :
    execInst (State.mk s.ic s.registers instrs) (toInstr2 inst)
      = State.mk (step12 s inst).ic (step12 s inst).registers instrs := by
  cases inst with
  | cpy source register => rfl
  | inc register =>
    cases hl : lookupReg s.registers register with
    | some w =>
      simp [execInst, step12, toInstr2, State.getValue, getValueR,
        State.setValue, hl]
    | none =>
      simp [execInst, step12, toInstr2, State.getValue, getValueR,
        State.setValue, hl, insertReg_insertReg]
  | dec register =>
    cases hl : lookupReg s.registers register with
    | some w =>
      simp [execInst, step12, toInstr2, State.getValue, getValueR,
        State.setValue, hl]
    | none =>
      simp [execInst, step12, toInstr2, State.getValue, getValueR,
        State.setValue, hl, insertReg_insertReg]
  | jnz source offset =>
    simp only [execInst, step12, toInstr2, State.getValue, State12.getValue]
    split_ifs with h <;> rfl

theorem run_sim (n : Nat) (instrs : List Instruction12) (s : State12) :
    run2 n (State.mk s.ic s.registers (instrs.map toInstr2))
      = State.mk (run12 n instrs s).ic (run12 n instrs s).registers
          (instrs.map toInstr2) := by
  induction n generalizing s with
  | zero => rfl
  | succ n ih =>
    by_cases hneg : s.ic < 0
    · have hfetch : (State.mk s.ic s.registers (instrs.map toInstr2)).getInstruction s.ic
          = none := by
        simp [State.getInstruction, hneg]
      simp only [run2, run12, hfetch, if_pos hneg]
    · cases hget : instrs.get? s.ic.toNat with
      | none =>
        have hlen : instrs.length ≤ s.ic.toNat := List.get?_eq_none.mp hget
        have hfetch : (State.mk s.ic s.registers (instrs.map toInstr2)).getInstruction s.ic
            = none := by
          simp only [State.getInstruction]
          rw [if_neg hneg, if_pos (by simpa using hlen)]
        simp only [run2, run12, hfetch, if_neg hneg, hget]
      | some inst =>
        have hlt : s.ic.toNat < instrs.length := (List.get?_eq_some.mp hget).1
        have hfetch : (State.mk s.ic s.registers (instrs.map toInstr2)).getInstruction s.ic
            = some (toInstr2 inst) := by
          simp only [State.getInstruction]
          rw [if_neg hneg, if_neg (by simp; omega), List.get?_map, hget]
          rfl
        have hstep : step (State.mk s.ic s.registers (instrs.map toInstr2))
            = (true, execInst (State.mk s.ic s.registers (instrs.map toInstr2))
                (toInstr2 inst)) := by
          simp only [step, hfetch]
        simp only [run2, run12, hfetch, if_neg hneg, hget, hstep]
        rw [step12_sim]
        exact ih (step12 s inst)

/-- C8 (amended): for every program whose toggle-capable parse is the
positional translation `toInstr2` of its non-toggle parse (true for
any `tgl`-free program in which no `cpy`/`inc`/`dec` register-name
token is numeric), and every initial register seeding, the two machines
agree after any number of driver-loop iterations: same counter (hence
the same halting point) and identical register mappings, with the
variant-2 instruction memory never modified. -/
theorem variant_equivalence_translated (n : Nat) (instrs : List Instruction12)
    (regs : List (String × Int)) :
    (run2 n (State.mk 0 regs (instrs.map toInstr2))).registers
        = (run12 n instrs (State12.mk 0 regs)).registers
    ∧ (run2 n (State.mk 0 regs (instrs.map toInstr2))).ic
        = (run12 n instrs (State12.mk 0 regs)).ic
    ∧ (run2 n (State.mk 0 regs (instrs.map toInstr2))).instructions
        = instrs.map toInstr2 := by
  have h := run_sim n instrs (State12.mk 0 regs)
  rw [h]
  exact ⟨rfl, rfl, rfl⟩

/-- Counterexample to C8 as stated: the one-line program `cpy 1 2`
parses in both variants and contains no `tgl`, yet after both machines
halt (one step each) the final register mappings differ: variant 1
treats the token `2` as a register name and writes to it, variant 2
parses it as a constant target and silently drops the write. -/
theorem variant_equivalence_cex :
    instruction12FromStr "cpy 1 2"
      = Except.ok (.cpy (Source.constant 1) "2")
    ∧ instructionFromStr "cpy 1 2"
      = Except.ok (.cpy (Source.constant 1) (Source.constant 2))
    ∧ (run12 2 [Instruction12.cpy (Source.constant 1) "2"]
        (State12.mk 0 [("c", 1)])).registers = [("c", 1), ("2", 1)]
    ∧ (run2 2 (State.mk 0 [("c", 1)]
        [Instruction.cpy (Source.constant 1) (Source.constant 2)])).registers
      = [("c", 1)]
    ∧ (run12 2 [Instruction12.cpy (Source.constant 1) "2"]
        (State12.mk 0 [("c", 1)])).ic = 1
    ∧ ([("c", 1), ("2", 1)] : List (String × Int)) ≠ [("c", 1)] := by
  refine ⟨rfl, rfl, rfl, rfl, rfl, by decide⟩
